import Mathlib

/-!
Verification of `src/util/DynamicBlacklist.py` (the Guardian dynamic blacklist
module) against its natural-language specification.

The module's behavior rests on Python's `ipaddress` library, which we embed
faithfully at the bit/seq level:

* `IPv4Address(s)` parses a dotted quad (exactly four octets, decimal digits
  only, at most three characters, no leading zeros, each at most 255) and
  raises `AddressValueError` otherwise.
* `IPv4Network(s)` splits at `/` (more than one `/` is an `AddressValueError`),
  parses the address part as an `IPv4Address`, then the mask part: a decimal
  string (value at most 32; leading zeros allowed), or a dotted netmask or
  hostmask — anything else raises `NetmaskValueError`.  With the default
  `strict=True`, a network whose address has host bits set below the mask
  raises a plain `ValueError`.
* `addr in network` tests that the address with its host bits cleared equals
  the network address.
* Iterating an `IPv4Network` yields every address of the block (network and
  broadcast included), and `str` of an address prints the dotted quad.

All functions of the source file are embedded under their Python names.
Errors are explicit `Except` values; the three distinct Python exception
classes that the source's `try/except` distinguishes are the constructors of
`PyErr`.
-/

namespace Guardian

/-- The three exception classes of Python's `ipaddress` module that matter to
the source: `AddressValueError` (malformed address part), `NetmaskValueError`
(malformed mask part) and the plain `ValueError` raised by strict network
parsing when host bits are set. -/
inductive PyErr where
  | addressValueError
  | netmaskValueError
  | valueError
deriving DecidableEq

/-- The source's `ScrapeError` class (raised when scraping finds nothing). -/
inductive ScrapeError where
  | notFound
deriving DecidableEq

instance {ε α : Type} [DecidableEq ε] [DecidableEq α] : DecidableEq (Except ε α) := fun x y =>
  match x, y with
  | .ok a, .ok b =>
    if h : a = b then .isTrue (by rw [h]) else .isFalse (fun hc => h (Except.ok.inj hc))
  | .ok _, .error _ => .isFalse (fun hc => Except.noConfusion hc)
  | .error _, .ok _ => .isFalse (fun hc => Except.noConfusion hc)
  | .error e, .error f =>
    if h : e = f then .isTrue (by rw [h]) else .isFalse (fun hc => h (Except.error.inj hc))

/-- ASCII decimal digit test (Python `isascii() and isdigit()`). -/
def isAsciiDigit (c : Char) : Bool :=
  decide (48 ≤ c.toNat) && decide (c.toNat ≤ 57)

/-- Numeric value of an ASCII digit. -/
def digitVal (c : Char) : Nat := c.toNat - 48

/-- Split a character list at every occurrence of `sep` (Python `str.split`). -/
def splitOnChar (sep : Char) : List Char → List (List Char)
  | [] => [[]]
  | c :: cs =>
    if c = sep then [] :: splitOnChar sep cs
    else
      match splitOnChar sep cs with
      | [] => [[c]]
      | r :: rs => (c :: r) :: rs

/-- Python `ipaddress._parse_octet`: one to three ASCII decimal digits, no
leading zero unless the octet is exactly `0`, value at most 255. -/
def parseOctet : List Char → Option Nat
  | [a] => if isAsciiDigit a then some (digitVal a) else none
  | [a, b] =>
    if isAsciiDigit a && isAsciiDigit b && !(a == '0') then
      some (digitVal a * 10 + digitVal b)
    else none
  | [a, b, c] =>
    if isAsciiDigit a && isAsciiDigit b && isAsciiDigit c && !(a == '0')
        && decide (digitVal a * 100 + digitVal b * 10 + digitVal c ≤ 255) then
      some (digitVal a * 100 + digitVal b * 10 + digitVal c)
    else none
  | _ => none

/-- Python `IPv4Address._ip_int_from_string`: exactly four octets joined by
dots, yielding the 32-bit integer value of the address. -/
def ipIntFromString (l : List Char) : Option Nat :=
  match splitOnChar '.' l with
  | [p1, p2, p3, p4] =>
    match parseOctet p1, parseOctet p2, parseOctet p3, parseOctet p4 with
    | some o1, some o2, some o3, some o4 =>
      some (o1 * 16777216 + o2 * 65536 + o3 * 256 + o4)
    | _, _, _, _ => none
  | _ => none

/-- Python `IPv4Address(s)`: the integer value of the address, or
`AddressValueError`. -/
def parseIPv4Address (s : String) : Except PyErr Nat :=
  match ipIntFromString s.data with
  | some n => .ok n
  | none => .error .addressValueError

/-- Python `ipaddress._prefix_from_ip_int`: recover the mask length from the
integer value of a dotted netmask (high bits all ones). -/
def maskBitsFromIpInt (ip : Nat) : Option Nat :=
  (List.range 33).find? (fun q => ip == 4294967296 - 2 ^ (32 - q))

/-- Python `IPv4Network._make_netmask` on a string argument: a run of ASCII
digits is read as a decimal mask length (at most 32); otherwise the string is
parsed as a dotted netmask or hostmask; all failures are
`NetmaskValueError`. -/
def parseNetmask (m : List Char) : Except PyErr Nat :=
  if !m.isEmpty && m.all isAsciiDigit then
    if (m.foldl (fun acc c => acc * 10 + digitVal c) 0) ≤ 32 then
      .ok (m.foldl (fun acc c => acc * 10 + digitVal c) 0)
    else .error .netmaskValueError
  else
    match ipIntFromString m with
    | none => .error .netmaskValueError
    | some ip =>
      match maskBitsFromIpInt ip with
      | some q => .ok q
      | none =>
        match maskBitsFromIpInt (4294967295 - ip) with
        | some q => .ok q
        | none => .error .netmaskValueError

/-- Python `IPv4Network(s)` with the default `strict=True`: returns the pair
(network address value, mask length).  At most one `/` is permitted; the
address part is parsed first (its failures are `AddressValueError`), then the
mask part (failures are `NetmaskValueError`); finally host bits set below the
mask raise a plain `ValueError`. -/
def parseIPv4Network (s : String) : Except PyErr (Nat × Nat) :=
  match splitOnChar '/' s.data with
  | [a] =>
    match ipIntFromString a with
    | some n => .ok (n, 32)
    | none => .error .addressValueError
  | [a, m] =>
    match ipIntFromString a with
    | none => .error .addressValueError
    | some n =>
      match parseNetmask m with
      | .error e => .error e
      | .ok q => if n % 2 ^ (32 - q) = 0 then .ok (n, q) else .error .valueError
  | _ => .error .addressValueError

/-- Python `str(IPv4Address(n))`: the dotted-quad rendering of a 32-bit
address value. -/
def ipToString (n : Nat) : String :=
  ⟨(toString (n / 16777216 % 256)).data ++ '.' ::
    ((toString (n / 65536 % 256)).data ++ '.' ::
      ((toString (n / 256 % 256)).data ++ '.' :: (toString (n % 256)).data))⟩

/-- `get_all_ips_from_cidr` (source lines 83-89): parse the CIDR string as a
strict `IPv4Network` and collect `str(ip)` for every address of the block into
a set. -/
def get_all_ips_from_cidr (s : String) : Except PyErr (Finset String) :=
  match parseIPv4Network s with
  | .error e => .error e
  | .ok (net, q) =>
    .ok (((List.range (2 ^ (32 - q))).map (fun i => ipToString (net + i))).toFinset)

/-- The loop of `get_all_ips_from_cidr_array`: union the expansion of each
block into the accumulator, propagating the first parse error. -/
def unionIpsAux (acc : Finset String) : List String → Except PyErr (Finset String)
  | [] => .ok acc
  | b :: bs =>
    match get_all_ips_from_cidr b with
    | .error e => .error e
    | .ok s => unionIpsAux (acc ∪ s) bs

/-- `get_all_ips_from_cidr_array` (source lines 92-97). -/
def get_all_ips_from_cidr_array (l : List String) : Except PyErr (Finset String) :=
  unionIpsAux ∅ l

/-- The `properties` dictionary of an Azure category record, as navigated by
the source (`cat['properties']['addressPrefixes']`). -/
structure AzureProperties where
  addressPrefixes : List String
deriving DecidableEq

/-- One category record of the Azure range document. -/
structure AzureCategory where
  name : String
  properties : AzureProperties
deriving DecidableEq

/-- The decoded Azure range document (`azure_info_json['values']`). -/
structure AzureInfo where
  values : List AzureCategory
deriving DecidableEq

/-- Python `IPv4Address(a) in IPv4Network(net, q)`: the address with its host
bits cleared equals the network address. -/
def ipMemberOf (a net q : Nat) : Bool :=
  a - a % 2 ^ (32 - q) == net

/-- The body of the `try` block at source lines 108-110: build the network
from the block string, build the address from `ip`, and test membership.  The
network is constructed first, so its errors take precedence over the
address's `AddressValueError`. -/
def tryBlock (ip : String) (str_cidr : String) : Except PyErr Bool :=
  match parseIPv4Network str_cidr with
  | .error e => .error e
  | .ok (net, q) =>
    match ipIntFromString ip.data with
    | none => .error .addressValueError
    | some a => .ok (ipMemberOf a net q)

/-- The inner loop of `reverse_search_ip_in_azure` (source lines 107-113):
for each block string, run the `try` body; on a match append the whole
category to the accumulator; `except ipaddress.AddressValueError: pass`
swallows exactly that error class, every other error propagates. -/
def searchBlocks (ip : String) (cat : AzureCategory) (acc : List AzureCategory) :
    List String → Except PyErr (List AzureCategory)
  | [] => .ok acc
  | b :: bs =>
    match tryBlock ip b with
    | .ok true => searchBlocks ip cat (acc ++ [cat]) bs
    | .ok false => searchBlocks ip cat acc bs
    | .error .addressValueError => searchBlocks ip cat acc bs
    | .error e => .error e

/-- The outer loop of `reverse_search_ip_in_azure` (source lines 105-113). -/
def searchCats (ip : String) (acc : List AzureCategory) :
    List AzureCategory → Except PyErr (List AzureCategory)
  | [] => .ok acc
  | cat :: cats =>
    match searchBlocks ip cat acc cat.properties.addressPrefixes with
    | .error e => .error e
    | .ok acc2 => searchCats ip acc2 cats

/-- `reverse_search_ip_in_azure` (source lines 101-114). -/
def reverse_search_ip_in_azure (ip : String) (info : AzureInfo) :
    Except PyErr (List AzureCategory) :=
  searchCats ip [] info.values

/-- Does `parseIPv4Network` succeed on this block string? -/
def parsesOkB (b : String) : Bool :=
  match parseIPv4Network b with
  | .ok _ => true
  | .error _ => false

/-- Does the `try` body for this block never raise an error that the
`except AddressValueError` handler would fail to swallow? -/
def benignB (b : String) : Bool :=
  match parseIPv4Network b with
  | .ok _ => true
  | .error .addressValueError => true
  | .error _ => false

/-- Declarative membership of address value `a` in block string `b`: false
whenever the block fails to parse. -/
def matchesB (a : Nat) (b : String) : Bool :=
  match parseIPv4Network b with
  | .ok nq => ipMemberOf a nq.1 nq.2
  | .error _ => false

/-- `MICROSOFT_DOWNLOAD_REGEX` (source line 34), the pattern
`https://download.microsoft.com/download[^"]*[.]json`, as a list of
single-character matchers for its fixed head: `some c` is the literal `c`,
`none` is the regex `.` (any character other than a newline). -/
def MICROSOFT_DOWNLOAD_REGEX : List (Option Char) :=
  ("https://download".data.map some) ++ none ::
    (("microsoft".data.map some) ++ none :: ("com/download".data.map some))

/-- Match a list of single-character matchers against the head of the input,
returning the consumed characters and the rest. -/
def stripElems : List (Option Char) → List Char → Option (List Char × List Char)
  | [], s => some ([], s)
  | _ :: _, [] => none
  | p :: ps, c :: cs =>
    if (match p with | some l => l == c | none => c != '\n') then
      match stripElems ps cs with
      | some (u, r) => some (c :: u, r)
      | none => none
    else none

/-- Match a literal character list against the head of the input, returning
the rest. -/
def stripLit : List Char → List Char → Option (List Char)
  | [], s => some s
  | _ :: _, [] => none
  | p :: ps, c :: cs => if p == c then stripLit ps cs else none

/-- The tail `[.]json` of the download pattern. -/
def jsonTail : List Char := ['.', 'j', 's', 'o', 'n']

/-- The greedy `[^"]*[.]json` tail of the download pattern: consume the
longest run of non-quote characters after which the literal `.json` matches.
Returns the consumed characters (run plus `.json`) and the rest. -/
def starJson : List Char → Option (List Char × List Char)
  | [] => none
  | c :: cs =>
    if c == '"' then none
    else
      match starJson cs with
      | some (u, r) => some (c :: u, r)
      | none =>
        match stripLit jsonTail (c :: cs) with
        | some r => some (jsonTail, r)
        | none => none

/-- Match the whole download pattern at the head of the input, returning the
matched characters and the rest. -/
def matchMs (s : List Char) : Option (List Char × List Char) :=
  match stripElems MICROSOFT_DOWNLOAD_REGEX s with
  | none => none
  | some (u1, r1) =>
    match starJson r1 with
    | none => none
    | some (u2, r2) => some (u1 ++ u2, r2)

/-- Python `re.findall` for the download pattern: scan left to right, emit
each leftmost match and continue after it (matches do not overlap).  The fuel
argument is bounded by the input length; every step consumes at least one
character, so `msFindAll` below always supplies enough. -/
def msFindAllGo : Nat → List Char → List String
  | 0, _ => []
  | _ + 1, [] => []
  | fuel + 1, c :: cs =>
    match matchMs (c :: cs) with
    | some (m, rest) => String.mk m :: msFindAllGo fuel rest
    | none => msFindAllGo fuel cs

/-- `re.findall(MICROSOFT_DOWNLOAD_REGEX, content)`. -/
def msFindAll (s : List Char) : List String := msFindAllGo s.length s

/-- The pure core of `get_azure_ip_ranges_download` (source lines 58-63),
applied to the already-fetched page content: `files = re.findall(...)`; the
source then raises `ScrapeError` `if files is None`, but `re.findall` returns
a list and never `None`, which the `Option` value below makes explicit;
finally `list(set(files))` deduplicates. -/
def get_azure_ip_ranges_download (content : String) : Except ScrapeError (Finset String) :=
  let files : Option (List String) := some (msFindAll content.data)
  match files with
  | none => .error .notFound
  | some fs => .ok fs.toFinset

/-- One category entry of the parsed range document (name plus its valid CIDR
blocks), as specified for the Range Document Parser. -/
structure RangeCategory where
  name : String
  blocks : List String
deriving DecidableEq

/-- The parsed range document plus the diagnostic list of skipped entries. -/
structure ParsedRanges where
  categories : List RangeCategory
  skipped : List String
deriving DecidableEq

/-- Modelled from the spec: the source's `parse_azure_ip_ranges` (lines
71-80) downloads the document but leaves the category extraction as a `TODO`;
spec section 4.4 defines the intended contract, which this definition
follows: for each category entry keep the address-prefix strings that are
valid IPv4 CIDR, and record each invalid entry as skipped (a secondary
diagnostic) instead of raising.  The input is the already-decoded document
(category name with its address-prefix list). -/
def parse_azure_ip_ranges (doc : List (String × List String)) : ParsedRanges :=
  ⟨doc.map (fun e => ⟨e.1, e.2.filter parsesOkB⟩),
    (doc.map (fun e => e.2.filter (fun b => !parsesOkB b))).flatten⟩

/-- `T2_EU` (source line 20): static CIDR set for AS202021. -/
def T2_EU : Finset String :=
  {"185.56.64.0/24", "185.56.64.0/22", "185.56.65.0/24", "185.56.66.0/24",
    "185.56.67.0/24"}

/-- `T2_US` (source lines 23-26): static CIDR set for AS46555. -/
def T2_US : Finset String :=
  {"104.255.104.0/24", "104.255.104.0/22", "104.255.105.0/24", "104.255.106.0/24",
    "104.255.107.0/24", "192.81.240.0/24", "192.81.240.0/22", "192.81.241.0/24",
    "192.81.242.0/24", "192.81.243.0/24", "192.81.244.0/24", "192.81.244.0/22",
    "192.81.245.0/24", "192.81.246.0/24", "192.81.247.0/24", "198.133.210.0/24"}

/-- `AZURE_GET_PUBLIC_CLOUD_URL` (source line 32). -/
def AZURE_GET_PUBLIC_CLOUD_URL : String :=
  "https://www.microsoft.com/en-us/download/confirmation.aspx?id=56519"

/-- Decimal-digit decoder used to prove that the dotted-quad rendering is
injective: folds ASCII digits back into a number. -/
def decDigits (l : List Char) : Option Nat :=
  l.foldl
    (fun acc c =>
      match acc with
      | none => none
      | some a => if isAsciiDigit c then some (a * 10 + digitVal c) else none)
    (some 0)

/-- Example category used to exercise the duplicate-append behavior: one
category owning two nested blocks. -/
def catTwoBlocks : AzureCategory :=
  ⟨"AzureCloud", ⟨["10.0.0.0/8", "10.0.0.0/16"]⟩⟩

/-- Example document for the duplicate-append behavior. -/
def docTwoBlocks : AzureInfo := ⟨[catTwoBlocks]⟩

/-- Example document with one valid block, used for the invalid-address
scenarios. -/
def docOneBlock : AzureInfo := ⟨[⟨"AzureCloud", ⟨["10.0.0.0/8"]⟩⟩]⟩

/-- Example document containing a block whose mask length is out of range:
parsing it raises `NetmaskValueError`, which the membership scan does not
swallow. -/
def docBadMask : AzureInfo := ⟨[⟨"AzureCloud", ⟨["10.0.0.0/33"]⟩⟩]⟩

/-- Example document whose single category contains one matching block. -/
def docT2 : AzureInfo := ⟨[⟨"AzureCloud", ⟨["185.56.64.0/24"]⟩⟩]⟩

/-- Example document mixing one unparsable block (swallowed) with one valid
block. -/
def docMixed : AzureInfo := ⟨[⟨"AzureCloud", ⟨["not-a-cidr", "10.0.0.0/8"]⟩⟩]⟩

theorem parseOctet_le (l : List Char) (o : Nat) (h : parseOctet l = some o) : o ≤ 255 := by
  rcases l with _ | ⟨a, _ | ⟨b, _ | ⟨c, _ | ⟨d, rest⟩⟩⟩⟩
  · simp [parseOctet] at h
  · simp only [parseOctet] at h
    split at h
    · rename_i hg
      simp only [isAsciiDigit, Bool.and_eq_true, decide_eq_true_eq] at hg
      cases h
      simp only [digitVal]
      omega
    · simp at h
  · simp only [parseOctet] at h
    split at h
    · rename_i hg
      simp only [isAsciiDigit, Bool.and_eq_true, decide_eq_true_eq] at hg
      cases h
      simp only [digitVal]
      omega
    · simp at h
  · simp only [parseOctet] at h
    split at h
    · rename_i hg
      simp only [isAsciiDigit, Bool.and_eq_true, decide_eq_true_eq] at hg
      cases h
      omega
    · simp at h
  · simp [parseOctet] at h

theorem ipIntFromString_lt (l : List Char) (n : Nat) (h : ipIntFromString l = some n) :
    n < 4294967296 := by
  unfold ipIntFromString at h
  split at h
  · split at h
    · rename_i o1 o2 o3 o4 h1 h2 h3 h4
      cases h
      have b1 := parseOctet_le _ o1 h1
      have b2 := parseOctet_le _ o2 h2
      have b3 := parseOctet_le _ o3 h3
      have b4 := parseOctet_le _ o4 h4
      omega
    · simp at h
  · simp at h

theorem maskBits_le (ip q : Nat) (h : maskBitsFromIpInt ip = some q) : q ≤ 32 := by
  have hm := List.mem_of_find?_eq_some h
  have := List.mem_range.mp hm
  omega

theorem parseNetmask_le (m : List Char) (q : Nat) (h : parseNetmask m = .ok q) : q ≤ 32 := by
  unfold parseNetmask at h
  split at h
  · split at h
    · rename_i hle
      cases h
      exact hle
    · simp at h
  · split at h
    · simp at h
    · split at h
      · rename_i hfind
        cases h
        exact maskBits_le _ _ hfind
      · split at h
        · rename_i hfind
          cases h
          exact maskBits_le _ _ hfind
        · simp at h

theorem parseIPv4Network_spec (s : String) (net q : Nat)
    (h : parseIPv4Network s = .ok (net, q)) :
    net < 4294967296 ∧ q ≤ 32 ∧ net % 2 ^ (32 - q) = 0 := by
  unfold parseIPv4Network at h
  split at h
  · split at h
    · rename_i n hip
      simp only [Except.ok.injEq, Prod.mk.injEq] at h
      obtain ⟨h1, h2⟩ := h
      subst h1; subst h2
      exact ⟨ipIntFromString_lt _ _ hip, by omega, by omega⟩
    · simp at h
  · split at h
    · simp at h
    · rename_i n hip
      split at h
      · simp at h
      · rename_i q2 hq2
        split at h
        · rename_i halign
          simp only [Except.ok.injEq, Prod.mk.injEq] at h
          obtain ⟨h1, h2⟩ := h
          subst h1; subst h2
          exact ⟨ipIntFromString_lt _ _ hip, parseNetmask_le _ _ hq2, halign⟩
        · simp at h
  · simp at h

set_option maxRecDepth 100000 in
theorem decDigits_toString : ∀ k, k < 256 → decDigits (toString k).data = some k := by decide

set_option maxRecDepth 100000 in
theorem dot_not_in_toString : ∀ k, k < 256 → '.' ∉ (toString k).data := by decide

theorem toString_octet_inj (a b : Nat) (ha : a < 256) (hb : b < 256)
    (h : (toString a).data = (toString b).data) : a = b := by
  have h1 := decDigits_toString a ha
  have h2 := decDigits_toString b hb
  rw [h] at h1
  rw [h1] at h2
  exact Option.some.inj h2

theorem splitDotFirst (xs : List Char) : ∀ (xs2 ys ys2 : List Char), '.' ∉ xs → '.' ∉ xs2 →
    xs ++ '.' :: ys = xs2 ++ '.' :: ys2 → xs = xs2 ∧ ys = ys2 := by
  induction xs with
  | nil =>
    intro xs2 ys ys2 _ h2 heq
    cases xs2 with
    | nil =>
      simp only [List.nil_append, List.cons.injEq] at heq
      exact ⟨rfl, heq.2⟩
    | cons c cs =>
      simp only [List.nil_append, List.cons_append, List.cons.injEq] at heq
      exact absurd (heq.1 ▸ List.mem_cons_self c cs) h2
  | cons d ds ih =>
    intro xs2 ys ys2 h1 h2 heq
    cases xs2 with
    | nil =>
      simp only [List.cons_append, List.nil_append, List.cons.injEq] at heq
      exact absurd (heq.1 ▸ List.mem_cons_self d ds) h1
    | cons c cs =>
      simp only [List.cons_append, List.cons.injEq] at heq
      obtain ⟨hdc, htl⟩ := heq
      subst hdc
      have h1b : '.' ∉ ds := fun hm => h1 (List.mem_cons_of_mem _ hm)
      have h2b : '.' ∉ cs := fun hm => h2 (List.mem_cons_of_mem _ hm)
      obtain ⟨e1, e2⟩ := ih cs ys ys2 h1b h2b htl
      exact ⟨by rw [e1], e2⟩

theorem ipToString_inj (m n : Nat) (hm : m < 4294967296) (hn : n < 4294967296)
    (h : ipToString m = ipToString n) : m = n := by
  unfold ipToString at h
  rw [String.ext_iff] at h
  have o1lt : m / 16777216 % 256 < 256 := Nat.mod_lt _ (by norm_num)
  have o2lt : m / 65536 % 256 < 256 := Nat.mod_lt _ (by norm_num)
  have o3lt : m / 256 % 256 < 256 := Nat.mod_lt _ (by norm_num)
  have o4lt : m % 256 < 256 := Nat.mod_lt _ (by norm_num)
  have p1lt : n / 16777216 % 256 < 256 := Nat.mod_lt _ (by norm_num)
  have p2lt : n / 65536 % 256 < 256 := Nat.mod_lt _ (by norm_num)
  have p3lt : n / 256 % 256 < 256 := Nat.mod_lt _ (by norm_num)
  have p4lt : n % 256 < 256 := Nat.mod_lt _ (by norm_num)
  obtain ⟨e1, h2⟩ := splitDotFirst _ _ _ _ (dot_not_in_toString _ o1lt) (dot_not_in_toString _ p1lt) h
  obtain ⟨e2, h3⟩ := splitDotFirst _ _ _ _ (dot_not_in_toString _ o2lt) (dot_not_in_toString _ p2lt) h2
  obtain ⟨e3, e4⟩ := splitDotFirst _ _ _ _ (dot_not_in_toString _ o3lt) (dot_not_in_toString _ p3lt) h3
  have q1 := toString_octet_inj _ _ o1lt p1lt e1
  have q2 := toString_octet_inj _ _ o2lt p2lt e2
  have q3 := toString_octet_inj _ _ o3lt p3lt e3
  have q4 := toString_octet_inj _ _ o4lt p4lt e4
  omega

theorem net_add_size_le (net q : Nat) (h1 : net < 4294967296) (h2 : q ≤ 32)
    (h3 : net % 2 ^ (32 - q) = 0) : net + 2 ^ (32 - q) ≤ 4294967296 := by
  obtain ⟨k, hk⟩ := Nat.dvd_of_mod_eq_zero h3
  have hpow : (2 : ℕ) ^ (32 - q) * 2 ^ q = 4294967296 := by
    rw [← pow_add]
    have he : 32 - q + q = 32 := by omega
    rw [he]
    norm_num
  have hkB : k < 2 ^ q := by
    rcases Nat.lt_or_ge k (2 ^ q) with hlt | hge
    · exact hlt
    · exfalso
      have hmul : 2 ^ (32 - q) * 2 ^ q ≤ 2 ^ (32 - q) * k :=
        Nat.mul_le_mul (Nat.le_refl _) hge
      rw [hpow] at hmul
      omega
  have hstep : 2 ^ (32 - q) * (k + 1) ≤ 2 ^ (32 - q) * 2 ^ q :=
    Nat.mul_le_mul (Nat.le_refl _) hkB
  rw [hpow] at hstep
  calc net + 2 ^ (32 - q) = 2 ^ (32 - q) * k + 2 ^ (32 - q) := by rw [hk]
    _ = 2 ^ (32 - q) * (k + 1) := by ring
    _ ≤ 4294967296 := hstep

theorem expand_eq (s : String) (net q : Nat) (h : parseIPv4Network s = .ok (net, q)) :
    get_all_ips_from_cidr s =
      .ok (((List.range (2 ^ (32 - q))).map (fun i => ipToString (net + i))).toFinset) := by
  unfold get_all_ips_from_cidr
  rw [h]

theorem expand_list_nodup (net q : Nat) (hle : net + 2 ^ (32 - q) ≤ 4294967296) :
    ((List.range (2 ^ (32 - q))).map (fun i => ipToString (net + i))).Nodup := by
  apply List.Nodup.map_on _ (List.nodup_range _)
  intro i hi j hj hEq
  have hib := List.mem_range.mp hi
  have hjb := List.mem_range.mp hj
  have := ipToString_inj (net + i) (net + j) (by omega) (by omega) hEq
  omega

theorem expand_general (s : String) (net q : Nat) (h : parseIPv4Network s = .ok (net, q)) :
    ∃ F, get_all_ips_from_cidr s = .ok F ∧ F.card = 2 ^ (32 - q) ∧
      ∀ a ∈ F, ∃ n, net ≤ n ∧ n ≤ net + 2 ^ (32 - q) - 1 ∧ a = ipToString n := by
  obtain ⟨h1, h2, h3⟩ := parseIPv4Network_spec s net q h
  have hle := net_add_size_le net q h1 h2 h3
  refine ⟨_, expand_eq s net q h, ?_, ?_⟩
  · rw [List.toFinset_card_of_nodup (expand_list_nodup net q hle)]
    simp
  · intro a ha
    rw [List.mem_toFinset] at ha
    obtain ⟨i, hi, rfl⟩ := List.mem_map.mp ha
    have hib := List.mem_range.mp hi
    have hpos : 0 < 2 ^ (32 - q) := pow_pos (by norm_num) _
    exact ⟨net + i, by omega, by omega, rfl⟩

theorem ipToString_base185 (i : Nat) (hi : i < 256) :
    ipToString (3107471360 + i) = "185.56.64." ++ toString i := by
  unfold ipToString
  have e1 : (3107471360 + i) / 16777216 % 256 = 185 := by omega
  have e2 : (3107471360 + i) / 65536 % 256 = 56 := by omega
  have e3 : (3107471360 + i) / 256 % 256 = 64 := by omega
  have e4 : (3107471360 + i) % 256 = i := by omega
  rw [e1, e2, e3, e4]
  rfl

theorem unionIpsAux_char (l : List String) :
    (∀ b ∈ l, parsesOkB b = true) →
    ∀ acc, ∃ S, unionIpsAux acc l = .ok S ∧
      ∀ x, x ∈ S ↔ (x ∈ acc ∨ ∃ b ∈ l, ∃ T, get_all_ips_from_cidr b = .ok T ∧ x ∈ T) := by
  induction l with
  | nil =>
    intro _ acc
    refine ⟨acc, rfl, ?_⟩
    intro x
    simp
  | cons b bs ih =>
    intro hv acc
    have hb : parsesOkB b = true := hv b (List.mem_cons_self b bs)
    obtain ⟨T, hT⟩ : ∃ T, get_all_ips_from_cidr b = .ok T := by
      unfold parsesOkB at hb
      unfold get_all_ips_from_cidr
      cases hpb : parseIPv4Network b with
      | ok nq =>
        obtain ⟨net, q⟩ := nq
        exact ⟨_, rfl⟩
      | error e =>
        rw [hpb] at hb
        simp at hb
    obtain ⟨S, hS, hmem⟩ := ih (fun x hx => hv x (List.mem_cons_of_mem _ hx)) (acc ∪ T)
    refine ⟨S, ?_, ?_⟩
    · unfold unionIpsAux
      rw [hT]
      exact hS
    · intro x
      rw [hmem x]
      constructor
      · rintro (hin | ⟨b2, hb2, T2, hT2, hx⟩)
        · rcases Finset.mem_union.mp hin with hacc | hxt
          · exact Or.inl hacc
          · exact Or.inr ⟨b, List.mem_cons_self b bs, T, hT, hxt⟩
        · exact Or.inr ⟨b2, List.mem_cons_of_mem _ hb2, T2, hT2, hx⟩
      · rintro (hin | ⟨b2, hb2, T2, hT2, hx⟩)
        · exact Or.inl (Finset.mem_union_left _ hin)
        · rcases List.mem_cons.mp hb2 with heq | hmem2
          · subst heq
            rw [hT] at hT2
            have hTeq := Except.ok.inj hT2
            subst hTeq
            exact Or.inl (Finset.mem_union_right _ hx)
          · exact Or.inr ⟨b2, hmem2, T2, hT2, hx⟩

theorem tryBlock_parse_ok (ip : String) (a : Nat) (b : String) (net q : Nat)
    (ha : ipIntFromString ip.data = some a) (hb : parseIPv4Network b = .ok (net, q)) :
    tryBlock ip b = .ok (ipMemberOf a net q) := by
  unfold tryBlock
  rw [hb, ha]

theorem tryBlock_parse_err (ip : String) (b : String) (e : PyErr)
    (hb : parseIPv4Network b = .error e) : tryBlock ip b = .error e := by
  unfold tryBlock
  rw [hb]

theorem tryBlock_bad_ip (ip : String) (b : String) (net q : Nat)
    (ha : ipIntFromString ip.data = none) (hb : parseIPv4Network b = .ok (net, q)) :
    tryBlock ip b = .error .addressValueError := by
  unfold tryBlock
  rw [hb, ha]

theorem benign_err_is_addr (b : String) (e : PyErr) (hb : benignB b = true)
    (hpb : parseIPv4Network b = .error e) : e = .addressValueError := by
  unfold benignB at hb
  rw [hpb] at hb
  cases e
  · rfl
  · simp at hb
  · simp at hb

theorem searchBlocks_char (ip : String) (a : Nat) (cat : AzureCategory)
    (ha : ipIntFromString ip.data = some a) :
    ∀ bs acc, (∀ b ∈ bs, benignB b = true) →
      searchBlocks ip cat acc bs =
        .ok (acc ++ (bs.filter (fun b => matchesB a b)).map (fun _ => cat)) := by
  intro bs
  induction bs with
  | nil =>
    intro acc _
    simp [searchBlocks]
  | cons b bs ih =>
    intro acc hben
    have hrest : ∀ x ∈ bs, benignB x = true := fun x hx => hben x (List.mem_cons_of_mem _ hx)
    cases hpb : parseIPv4Network b with
    | ok nq =>
      obtain ⟨net, q⟩ := nq
      have ht := tryBlock_parse_ok ip a b net q ha hpb
      have hmB : matchesB a b = ipMemberOf a net q := by
        unfold matchesB
        rw [hpb]
      cases hmem : ipMemberOf a net q with
      | true =>
        rw [hmem] at ht
        simp only [searchBlocks, ht, List.filter_cons, hmB, hmem, if_true]
        rw [ih (acc ++ [cat]) hrest]
        simp
      | false =>
        rw [hmem] at ht
        simp only [searchBlocks, ht, List.filter_cons, hmB, hmem, if_false]
        rw [ih acc hrest]
        simp
    | error e =>
      have he := benign_err_is_addr b e (hben b (List.mem_cons_self b bs)) hpb
      subst he
      have ht := tryBlock_parse_err ip b _ hpb
      have hmB : matchesB a b = false := by
        unfold matchesB
        rw [hpb]
      simp only [searchBlocks, ht, List.filter_cons, hmB, if_false]
      rw [ih acc hrest]
      simp

theorem searchCats_char (ip : String) (a : Nat) (ha : ipIntFromString ip.data = some a) :
    ∀ cats acc, (∀ cat ∈ cats, ∀ b ∈ cat.properties.addressPrefixes, benignB b = true) →
      searchCats ip acc cats =
        .ok (acc ++ cats.flatMap (fun cat =>
          (cat.properties.addressPrefixes.filter (fun b => matchesB a b)).map (fun _ => cat))) := by
  intro cats
  induction cats with
  | nil =>
    intro acc _
    simp [searchCats]
  | cons cat cats ih =>
    intro acc hben
    have h1 := searchBlocks_char ip a cat ha cat.properties.addressPrefixes acc
      (hben cat (List.mem_cons_self cat cats))
    simp only [searchCats, h1]
    rw [ih _ (fun c hc => hben c (List.mem_cons_of_mem _ hc))]
    simp [List.flatMap_cons, List.append_assoc]

theorem searchBlocks_bad_ip (ip : String) (cat : AzureCategory)
    (ha : ipIntFromString ip.data = none) :
    ∀ bs acc, (∀ b ∈ bs, benignB b = true) → searchBlocks ip cat acc bs = .ok acc := by
  intro bs
  induction bs with
  | nil =>
    intro acc _
    simp [searchBlocks]
  | cons b bs ih =>
    intro acc hben
    have hrest : ∀ x ∈ bs, benignB x = true := fun x hx => hben x (List.mem_cons_of_mem _ hx)
    cases hpb : parseIPv4Network b with
    | ok nq =>
      obtain ⟨net, q⟩ := nq
      have ht := tryBlock_bad_ip ip b net q ha hpb
      simp only [searchBlocks, ht]
      exact ih acc hrest
    | error e =>
      have he := benign_err_is_addr b e (hben b (List.mem_cons_self b bs)) hpb
      subst he
      have ht := tryBlock_parse_err ip b _ hpb
      simp only [searchBlocks, ht]
      exact ih acc hrest

theorem searchCats_bad_ip (ip : String) (ha : ipIntFromString ip.data = none) :
    ∀ cats acc, (∀ cat ∈ cats, ∀ b ∈ cat.properties.addressPrefixes, benignB b = true) →
      searchCats ip acc cats = .ok acc := by
  intro cats
  induction cats with
  | nil =>
    intro acc _
    simp [searchCats]
  | cons cat cats ih =>
    intro acc hben
    have h1 := searchBlocks_bad_ip ip cat ha cat.properties.addressPrefixes acc
      (hben cat (List.mem_cons_self cat cats))
    simp only [searchCats, h1]
    exact ih acc (fun c hc => hben c (List.mem_cons_of_mem _ hc))

theorem bind_sublist_of_forall {α β : Type} (l : List α) (f g : α → List β)
    (h : ∀ x ∈ l, (f x).Sublist (g x)) : (l.flatMap f).Sublist (l.flatMap g) := by
  induction l with
  | nil => simp
  | cons a l ih =>
    simp only [List.flatMap_cons]
    exact List.Sublist.append (h a (List.mem_cons_self a l))
      (ih (fun x hx => h x (List.mem_cons_of_mem _ hx)))

theorem bind_eq_nil_of_forall {α β : Type} (l : List α) (f : α → List β)
    (h : ∀ x ∈ l, f x = []) : l.flatMap f = [] := by
  induction l with
  | nil => simp
  | cons a l ih =>
    simp [List.flatMap_cons, h a (List.mem_cons_self a l),
      ih (fun x hx => h x (List.mem_cons_of_mem _ hx))]

/-- C1 counterexample: for the IP `10.0.0.1` and a document whose single
category owns the two nested blocks `10.0.0.0/8` and `10.0.0.0/16`, the
category appears twice in the result of `reverse_search_ip_in_azure`, not at
most once: line 111 of the source appends `cat` once per matching block. -/
theorem c1_counterexample :
    reverse_search_ip_in_azure "10.0.0.1" docTwoBlocks = .ok [catTwoBlocks, catTwoBlocks]
    ∧ [catTwoBlocks, catTwoBlocks].count catTwoBlocks = 2 := by
  exact ⟨by decide, by decide⟩

/-- C1 (amended): for a valid IP and a document none of whose blocks raises an
unswallowed parse error, `reverse_search_ip_in_azure` returns, in document
order, one copy of each category per matching block of that category — so a
category whose blocks match the IP k times appears k times (duplicates are not
removed). -/
theorem c1_category_once_per_matching_block (ip : String) (a : Nat) (info : AzureInfo)
    (ha : ipIntFromString ip.data = some a)
    (hben : ∀ cat ∈ info.values, ∀ b ∈ cat.properties.addressPrefixes, benignB b = true) :
    reverse_search_ip_in_azure ip info =
      .ok (info.values.flatMap (fun cat =>
        (cat.properties.addressPrefixes.filter (fun b => matchesB a b)).map (fun _ => cat))) := by
  unfold reverse_search_ip_in_azure
  rw [searchCats_char ip a ha info.values [] hben]
  simp

/-- Witness for the amended C1 theorem at the concrete duplicate document. -/
theorem c1_witness :
    reverse_search_ip_in_azure "10.0.0.1" docTwoBlocks =
      .ok (docTwoBlocks.values.flatMap (fun cat =>
        (cat.properties.addressPrefixes.filter (fun b => matchesB 167772161 b)).map
          (fun _ => cat))) :=
  c1_category_once_per_matching_block "10.0.0.1" 167772161 docTwoBlocks (by decide) (by decide)

/-- C2 (code bug): on page content with zero substrings matching the download
pattern, `get_azure_ip_ranges_download` returns the empty set instead of
raising `ScrapeError`: `re.findall` returns `[]` (never `None`), so the
source's `if files is None` guard at line 59 can never fire; in general the
function never raises `ScrapeError` at all. -/
theorem c2_zero_matches_returns_empty :
    get_azure_ip_ranges_download "<html><body>no links here</body></html>" = .ok ∅
    ∧ ∀ content, ∃ S, get_azure_ip_ranges_download content = .ok S := by
  exact ⟨by decide, fun content => ⟨_, rfl⟩⟩

/-- C3: the (spec-modelled) `parse_azure_ip_ranges` on a document whose
category list pairs the invalid prefix `not-a-cidr` with the valid prefix
`10.0.0.0/8` succeeds, keeps `10.0.0.0/8` in that category's block list, and
records the invalid entry in the skipped diagnostic rather than raising. -/
theorem c3_parse_skips_invalid :
    parse_azure_ip_ranges [("AzureCloud", ["not-a-cidr", "10.0.0.0/8"])] =
      ⟨[⟨"AzureCloud", ["10.0.0.0/8"]⟩], ["not-a-cidr"]⟩ := by
  decide

/-- C4 counterexample: for the syntactically invalid address `not-an-ip` and a
document with one well-formed block, `reverse_search_ip_in_azure` returns the
empty sequence instead of failing: the `AddressValueError` raised by
`IPv4Address(ip)` at line 110 is caught by the per-block handler at line 112. -/
theorem c4_counterexample :
    reverse_search_ip_in_azure "not-an-ip" docOneBlock = .ok [] := by
  decide

/-- C4 (amended): for an input that is not a valid IPv4 address,
`reverse_search_ip_in_azure` does not raise an address error: each block scan
fails with `AddressValueError`, which the handler swallows, so for every
document whose blocks never raise an unswallowed error the result is the empty
sequence. -/
theorem c4_invalid_ip_returns_empty (ip : String) (info : AzureInfo)
    (ha : ipIntFromString ip.data = none)
    (hben : ∀ cat ∈ info.values, ∀ b ∈ cat.properties.addressPrefixes, benignB b = true) :
    reverse_search_ip_in_azure ip info = .ok [] := by
  unfold reverse_search_ip_in_azure
  exact searchCats_bad_ip ip ha info.values [] hben

/-- Witness for the amended C4 theorem: an out-of-range octet. -/
theorem c4_witness : reverse_search_ip_in_azure "256.1.2.3" docTwoBlocks = .ok [] :=
  c4_invalid_ip_returns_empty "256.1.2.3" docTwoBlocks (by decide) (by decide)

/-- C5 counterexample: a malformed block whose mask length is out of range
(`10.0.0.0/33`) raises `NetmaskValueError`, which the handler at line 112
(`except ipaddress.AddressValueError`) does not swallow, so the whole call
raises even for a perfectly valid IP. -/
theorem c5_counterexample :
    reverse_search_ip_in_azure "1.2.3.4" docBadMask = .error .netmaskValueError := by
  decide

/-- C5 (amended): only per-block failures of class `AddressValueError`
(malformed address part, e.g. garbage or IPv6 strings) are swallowed and
treated as no match: removing such a block from the scan never changes the
outcome, and a call over blocks that only fail that way never raises; blocks
raising `NetmaskValueError` or `ValueError` propagate (see the
counterexample). -/
theorem c5_swallow_scope :
    (∀ ip (a : Nat) (info : AzureInfo), ipIntFromString ip.data = some a →
      (∀ cat ∈ info.values, ∀ b ∈ cat.properties.addressPrefixes, benignB b = true) →
      ∃ r, reverse_search_ip_in_azure ip info = .ok r)
    ∧ (∀ ip cat acc bad bs1 bs2, parseIPv4Network bad = .error .addressValueError →
        searchBlocks ip cat acc (bs1 ++ bad :: bs2) = searchBlocks ip cat acc (bs1 ++ bs2)) := by
  constructor
  · intro ip a info ha hben
    have hch := searchCats_char ip a ha info.values [] hben
    exact ⟨_, by unfold reverse_search_ip_in_azure; exact hch⟩
  · intro ip cat acc bad bs1 bs2 hbad
    induction bs1 generalizing acc with
    | nil =>
      have ht := tryBlock_parse_err ip bad _ hbad
      simp only [List.nil_append, searchBlocks, ht]
    | cons b bs ih =>
      simp only [List.cons_append, searchBlocks]
      cases ht : tryBlock ip b with
      | ok v =>
        cases v
        · exact ih acc
        · exact ih (acc ++ [cat])
      | error e =>
        cases e
        · exact ih acc
        · rfl
        · rfl

/-- Witness for the amended C5 theorem at a document mixing an unparsable
block with a valid one. -/
theorem c5_witness :
    ∃ r, reverse_search_ip_in_azure "10.0.0.1" docMixed = .ok r :=
  c5_swallow_scope.1 "10.0.0.1" 167772161 docMixed (by decide) (by decide)

/-- C6: for every block accepted by strict network parsing,
`get_all_ips_from_cidr` returns a set of exactly `2^(32-q)` address strings
(no duplicates, being a set with that cardinality), each rendering an address
value in `[net, net + 2^(32-q) - 1]`; concretely, `185.56.64.0/24` expands to
the 256 addresses `185.56.64.0` through `185.56.64.255`. -/
theorem c6_expand_count_and_range :
    (∀ s net q, parseIPv4Network s = .ok (net, q) →
      ∃ F, get_all_ips_from_cidr s = .ok F ∧ F.card = 2 ^ (32 - q) ∧
        ∀ a ∈ F, ∃ n, net ≤ n ∧ n ≤ net + 2 ^ (32 - q) - 1 ∧ a = ipToString n)
    ∧ (∃ F, get_all_ips_from_cidr "185.56.64.0/24" = .ok F ∧ F.card = 256 ∧
        ∀ i, i < 256 → ("185.56.64." ++ toString i) ∈ F) := by
  constructor
  · exact expand_general
  · have hp : parseIPv4Network "185.56.64.0/24" = .ok (3107471360, 24) := by decide
    obtain ⟨h1, h2, h3⟩ := parseIPv4Network_spec _ _ _ hp
    have hle := net_add_size_le _ _ h1 h2 h3
    refine ⟨_, expand_eq _ _ _ hp, ?_, ?_⟩
    · rw [List.toFinset_card_of_nodup (expand_list_nodup _ _ hle)]
      simp
    · intro i hi
      rw [List.mem_toFinset]
      apply List.mem_map.mpr
      have h256 : (2 : ℕ) ^ (32 - 24) = 256 := by norm_num
      exact ⟨i, List.mem_range.mpr (h256 ▸ hi), ipToString_base185 i hi⟩

/-- Witness for C6 at the block `10.0.0.0/8`. -/
theorem c6_witness :
    ∃ F, get_all_ips_from_cidr "10.0.0.0/8" = .ok F ∧ F.card = 2 ^ (32 - 8) ∧
      ∀ a ∈ F, ∃ n, 167772160 ≤ n ∧ n ≤ 167772160 + 2 ^ (32 - 8) - 1 ∧ a = ipToString n :=
  c6_expand_count_and_range.1 "10.0.0.0/8" 167772160 8 (by decide)

/-- C7: `get_all_ips_from_cidr_array` satisfies the identity law on a
singleton input, absorbs a duplicated block, and (for lists of valid blocks)
is invariant under permutation of the input. -/
theorem c7_expand_all_laws :
    (∀ B, get_all_ips_from_cidr_array [B] = get_all_ips_from_cidr B)
    ∧ (∀ B, get_all_ips_from_cidr_array [B, B] = get_all_ips_from_cidr B)
    ∧ (∀ l1 l2, l1.Perm l2 → (∀ b ∈ l1, parsesOkB b = true) →
        get_all_ips_from_cidr_array l1 = get_all_ips_from_cidr_array l2) := by
  refine ⟨?_, ?_, ?_⟩
  · intro B
    unfold get_all_ips_from_cidr_array
    cases hB : get_all_ips_from_cidr B with
    | error e => simp [unionIpsAux, hB]
    | ok S => simp [unionIpsAux, hB]
  · intro B
    unfold get_all_ips_from_cidr_array
    cases hB : get_all_ips_from_cidr B with
    | error e => simp [unionIpsAux, hB]
    | ok S => simp [unionIpsAux, hB]
  · intro l1 l2 hperm hv
    have hv2 : ∀ b ∈ l2, parsesOkB b = true := fun b hb => hv b (hperm.mem_iff.mpr hb)
    obtain ⟨S1, hS1, hm1⟩ := unionIpsAux_char l1 hv ∅
    obtain ⟨S2, hS2, hm2⟩ := unionIpsAux_char l2 hv2 ∅
    unfold get_all_ips_from_cidr_array
    rw [hS1, hS2]
    have hSeq : S1 = S2 := by
      ext x
      rw [hm1 x, hm2 x]
      simp only [Finset.not_mem_empty, false_or]
      constructor
      · rintro ⟨b, hb, T, hT, hx⟩
        exact ⟨b, hperm.mem_iff.mp hb, T, hT, hx⟩
      · rintro ⟨b, hb, T, hT, hx⟩
        exact ⟨b, hperm.mem_iff.mpr hb, T, hT, hx⟩
    rw [hSeq]

/-- Witness for C7's permutation law at a concrete two-block swap. -/
theorem c7_witness :
    get_all_ips_from_cidr_array ["0.0.0.0/32", "255.255.255.255/32"] =
      get_all_ips_from_cidr_array ["255.255.255.255/32", "0.0.0.0/32"] :=
  c7_expand_all_laws.2.2 _ _ (List.Perm.swap _ _ _) (by decide)

/-- C8: for a valid IP and a document none of whose blocks raises an
unswallowed error: if no block contains the IP the result is the empty
sequence; if the total number of matching blocks is exactly one, the result
has length 1 and names the category owning that block; and the result is a
sublist of the per-block category listing in document order, hence follows
document order deterministically. -/
theorem c8_membership_resolution (ip : String) (a : Nat) (info : AzureInfo)
    (ha : ipIntFromString ip.data = some a)
    (hben : ∀ cat ∈ info.values, ∀ b ∈ cat.properties.addressPrefixes, benignB b = true) :
    ((∀ cat ∈ info.values, ∀ b ∈ cat.properties.addressPrefixes, matchesB a b = false) →
      reverse_search_ip_in_azure ip info = .ok [])
    ∧ ((info.values.map (fun cat =>
          (cat.properties.addressPrefixes.filter (fun b => matchesB a b)).length)).sum = 1 →
        ∃ cat, cat ∈ info.values ∧
          (cat.properties.addressPrefixes.filter (fun b => matchesB a b)) ≠ [] ∧
          reverse_search_ip_in_azure ip info = .ok [cat])
    ∧ (∀ r, reverse_search_ip_in_azure ip info = .ok r →
        r.Sublist (info.values.flatMap (fun cat =>
          cat.properties.addressPrefixes.map (fun _ => cat)))) := by
  have hchar : reverse_search_ip_in_azure ip info =
      .ok (info.values.flatMap (fun cat =>
        (cat.properties.addressPrefixes.filter (fun b => matchesB a b)).map (fun _ => cat))) := by
    unfold reverse_search_ip_in_azure
    rw [searchCats_char ip a ha info.values [] hben]
    simp
  refine ⟨?_, ?_, ?_⟩
  · intro hnone
    have hz : (info.values.flatMap (fun cat =>
        (cat.properties.addressPrefixes.filter (fun b => matchesB a b)).map (fun _ => cat))) = [] := by
      apply bind_eq_nil_of_forall
      intro cat hcat
      have hf : (cat.properties.addressPrefixes.filter (fun b => matchesB a b)) = [] := by
        apply List.filter_eq_nil_iff.mpr
        intro b hb
        simp [hnone cat hcat b hb]
      rw [hf]
      rfl
    rw [hchar, hz]
  · intro hsum
    have hlen : (info.values.flatMap (fun cat =>
        (cat.properties.addressPrefixes.filter (fun b => matchesB a b)).map (fun _ => cat))).length = 1 := by
      rw [List.length_flatMap]
      simpa only [Function.comp_def, List.length_map] using hsum
    obtain ⟨x, hx⟩ := List.length_eq_one.mp hlen
    have hxmem : x ∈ info.values.flatMap (fun cat =>
        (cat.properties.addressPrefixes.filter (fun b => matchesB a b)).map (fun _ => cat)) := by
      rw [hx]
      exact List.mem_cons_self x []
    obtain ⟨cat, hcat, hxg⟩ := List.mem_flatMap.mp hxmem
    obtain ⟨b, hbf, hbx⟩ := List.mem_map.mp hxg
    refine ⟨cat, hcat, ?_, ?_⟩
    · intro hnil
      rw [hnil] at hbf
      exact List.not_mem_nil b hbf
    · rw [hchar, hx, ← hbx]
  · intro r hr
    rw [hchar] at hr
    have hreq := Except.ok.inj hr
    rw [← hreq]
    apply bind_sublist_of_forall
    intro cat hcat
    exact List.Sublist.map _ (List.filter_sublist _)

/-- Witness for C8 at a document with exactly one matching block. -/
theorem c8_witness :
    ∃ cat, cat ∈ docT2.values ∧
      (cat.properties.addressPrefixes.filter (fun b => matchesB 3107471367 b)) ≠ [] ∧
      reverse_search_ip_in_azure "185.56.64.7" docT2 = .ok [cat] :=
  (c8_membership_resolution "185.56.64.7" 3107471367 docT2 (by decide) (by decide)).2.1 (by decide)

set_option maxRecDepth 200000 in
/-- C9: `get_azure_ip_ranges_download` does not fail when several substrings
match the download pattern: on content containing exactly the literal
`https://download.microsoft.com/download/foo/bar.json` it returns exactly that
URL; on content repeating the same link twice it returns the deduplicated
singleton; and on content with two distinct matching links it returns both. -/
theorem c9_download_candidates :
    get_azure_ip_ranges_download
        "<a href=\"https://download.microsoft.com/download/foo/bar.json\">" =
      .ok {"https://download.microsoft.com/download/foo/bar.json"}
    ∧ get_azure_ip_ranges_download
        "<a href=\"https://download.microsoft.com/download/foo/bar.json\"><a href=\"https://download.microsoft.com/download/foo/bar.json\">" =
      .ok {"https://download.microsoft.com/download/foo/bar.json"}
    ∧ get_azure_ip_ranges_download
        "<a href=\"https://download.microsoft.com/download/foo/bar.json\"><a href=\"https://download.microsoft.com/download/baz/qux.json\">" =
      .ok {"https://download.microsoft.com/download/foo/bar.json",
        "https://download.microsoft.com/download/baz/qux.json"} := by
  exact ⟨by decide, by decide, by decide⟩

/-- C10: `get_all_ips_from_cidr` uses strict network parsing: the well-formed
dotted-quad-with-mask string `185.56.64.1/24` has host bits set below the
mask, so expansion raises the strict-mode `ValueError` instead of returning
the enclosing network's addresses. -/
theorem c10_strict_network_parsing :
    get_all_ips_from_cidr "185.56.64.1/24" = .error .valueError := by
  decide

end Guardian
